import Mathlib

/-!
Shallow embedding of `gbak.py`, a single-file GitHub backup tool, together
with theorems settling the specification claims about its
fetch/backoff/cancellation orchestration pipeline.

Modelling conventions:
- The global `SIGNINT` flag is read at well-defined poll points (the
  per-branch check in the fetch loop, and each one-second tick of the
  rate-limit backoff wait).  We model the sequence of values seen at those
  reads as a function `sig : Nat -> Bool`, indexed by a poll counter that is
  threaded through the execution.
- Network responses are supplied by an oracle `net : String -> Resp` mapping
  a URL to the response: its rate-limit header, HTTP success flag, raw body
  bytes (`content`), and the JSON-decoded payloads used by the two list
  endpoints (`items` for the repository search, `branches` for the
  branch-list endpoint).
- Side effects are recorded as an `Event` trace: network requests (tagged by
  call site), one-second sleeps, the timestamp capture, the session-directory
  creation, file writes, and the final report.  `exit(n)` becomes the
  outcome `Outcome.exited n`; an uncaught Python exception becomes
  `Outcome.uncaught`.
-/

namespace Gbak

/-- Line 38 of gbak.py: `RATE_LIMIT_WAIT_TIME_S = 10`. -/
def RATE_LIMIT_WAIT_TIME_S : Nat := 10

/-- Line 39 of gbak.py: `RATE_LIMIT_WARNING_THRESHOLD = 10`. -/
def RATE_LIMIT_WARNING_THRESHOLD : Int := 10

/-- A repository record as decoded from the search endpoint:
`{'name': ..., 'default_branch': ...}`. -/
structure Repo where
  name : String
  default_branch : String
deriving DecidableEq

/-- An HTTP response as seen by the program: the optional
`X-RateLimit-Remaining` header (already parsed as an integer), the HTTP
success flag consulted by `raise_for_status`, the raw body bytes
(`r.content`), and the JSON-decoded payloads used by the two call sites
that call `.json()` (`items` for the repository search response,
`branches` for the branch-list response, each already projected to the
fields the program reads). -/
structure Resp where
  remaining : Option Int := none
  ok : Bool := true
  content : List Nat := []
  items : List Repo := []
  branches : List String := []

/-- Which call site issued a request: the repository search (line 190), the
branch-list call (line 221), or the archive download (line 231). -/
inductive ReqKind
  | search
  | branchList
  | archive
deriving DecidableEq

/-- Observable effects of a run, in program order. -/
inductive Event
  | request (kind : ReqKind) (url : String)
  | sleep
  | tsCapture
  | mkdirEvt (path : String)
  | writeFile (path : String) (content : List Nat)
  | reportEvt (bytesTotal : Nat)
deriving DecidableEq

/-- How the process ends: `exit(code)` or an uncaught exception. -/
inductive Outcome
  | exited (code : Int)
  | uncaught
deriving DecidableEq

/-- The file-write events of a trace, as (path, content) pairs. -/
def writesOf (evs : List Event) : List (String × List Nat) :=
  evs.filterMap fun e =>
    match e with
    | Event.writeFile p c => some (p, c)
    | _ => none

/-- The network-request events of a trace, as (call site, URL) pairs. -/
def requestsOf (evs : List Event) : List (ReqKind × String) :=
  evs.filterMap fun e =>
    match e with
    | Event.request k u => some (k, u)
    | _ => none

/-- Total number of body bytes recorded by the write events of a trace. -/
def sumWrites (evs : List Event) : Nat :=
  ((writesOf evs).map fun pc => pc.2.length).sum

/-- Whether the trace contains the final report (line 241 of gbak.py). -/
def hasReport (evs : List Event) : Bool :=
  evs.any fun e =>
    match e with
    | Event.reportEvt _ => true
    | _ => false

/-- Line 90 of gbak.py: the combined test
`'X-RateLimit-Remaining' in r.headers and int(...) < RATE_LIMIT_WARNING_THRESHOLD`. -/
def lowQuota : Option Int → Bool
  | some n => decide (n < RATE_LIMIT_WARNING_THRESHOLD)
  | none => false

/-- Lines 97-102 of gbak.py: the backoff loop
`for i in range(0, wait_time_s): if SIGNINT: exit(0); time.sleep(1)`.
`s` is the current poll index, which also equals the number of one-second
sleeps performed so far; `fuel` is the number of iterations left.
`Sum.inl s` means `exit(0)` was reached after `s` sleeps; `Sum.inr s` means
the wait completed, `s` being the index one past the last poll. -/
def backoffLoop (sig : Nat → Bool) : Nat → Nat → Nat ⊕ Nat
  | 0, s => Sum.inr s
  | fuel + 1, s => if sig s then Sum.inl s else backoffLoop sig fuel (s + 1)

/-- Outcome of `rate_limit_check`: no wait was needed, the full wait
completed after `sleeps` seconds, or `exit(0)` fired after `sleeps` seconds. -/
inductive RlcResult
  | noWait
  | waited (sleeps : Nat)
  | exit0 (sleeps : Nat)
deriving DecidableEq

/-- Lines 79-104 of gbak.py: `rate_limit_check(r)`, as a function of the
parsed `X-RateLimit-Remaining` header and of the flag values seen at each
one-second poll. -/
def rate_limit_check (remaining : Option Int) (sig : Nat → Bool) : RlcResult :=
  if lowQuota remaining then
    match backoffLoop sig RATE_LIMIT_WAIT_TIME_S 0 with
    | Sum.inl s => RlcResult.exit0 s
    | Sum.inr s => RlcResult.waited s
  else RlcResult.noWait

/-- `rate_limit_check` as used inside `make_request`, threading the global
poll counter `t` and recording sleeps as events.  Returns the sleep events,
the next poll index, and whether `exit(0)` fired. -/
def rlc_m (sig : Nat → Bool) (t : Nat) (remaining : Option Int) :
    List Event × Nat × Bool :=
  if lowQuota remaining then
    match backoffLoop sig RATE_LIMIT_WAIT_TIME_S t with
    | Sum.inl p => (List.replicate (p - t) Event.sleep, p + 1, true)
    | Sum.inr p => (List.replicate RATE_LIMIT_WAIT_TIME_S Event.sleep, p, false)
  else ([], t, false)

/-- Lines 107-139 of gbak.py: `make_request(url, headers)`.  Issues the GET
request, runs `rate_limit_check` on the response (which may `exit(0)` on
cancellation during the backoff wait), then `raise_for_status`: any HTTP or
network failure is caught and turned into `exit(-1)`.  `Except.error c`
means the process exited with code `c`; `Except.ok r` returns the response. -/
def make_request_m (net : String → Resp) (sig : Nat → Bool) (k : ReqKind)
    (t : Nat) (url : String) : List Event × Nat × Except Int Resp :=
  let r := net url
  let rc := rlc_m sig t r.remaining
  if rc.2.2 then (Event.request k url :: rc.1, rc.2.1, Except.error 0)
  else if r.ok then (Event.request k url :: rc.1, rc.2.1, Except.ok r)
  else (Event.request k url :: rc.1, rc.2.1, Except.error (-1))

/-- Line 191 of gbak.py: the repository search URL. -/
def searchUrl (user : String) : String :=
  "https://api.github.com/search/repositories?q=user:" ++ user

/-- Line 222 of gbak.py: the branch-list URL for a repository. -/
def branchesUrl (user repoName : String) : String :=
  "https://api.github.com/repos/" ++ user ++ "/" ++ repoName ++ "/branches"

/-- Line 232 of gbak.py: the archive download URL for one branch. -/
def archiveUrl (user repoName branch ext : String) : String :=
  "https://github.com/" ++ user ++ "/" ++ repoName ++ "/archive/refs/heads/" ++
    branch ++ "." ++ ext

/-- Line 234 of gbak.py: the destination file path
`f'{dest}{timestamp}/{repo_name}_{branch}.{file_extension}'`. -/
def destPath (dest timestamp repoName branch ext : String) : String :=
  dest ++ timestamp ++ "/" ++ repoName ++ "_" ++ branch ++ "." ++ ext

/-- Lines 175-176 of gbak.py: append a trailing slash to `dest` if missing
(`dest.endswith('/')` asks whether the last character is a slash). -/
def normDest (dest : String) : String :=
  if dest.data.getLast? = some '/' then dest else dest ++ "/"

/-- Lines 224-239 of gbak.py: the inner `for branch in branches` loop.
Each iteration first reads `SIGNINT` (consuming one poll index); if set, the
loop `break`s.  Otherwise the archive is requested via `make_request` (which
may exit the process) and the full response body is written to the
destination path, the byte counter increasing by the number of bytes
written.  Returns (events, next poll index, byte counter, exit code if the
process exited inside the loop). -/
def fetchBranches (net : String → Resp) (sig : Nat → Bool)
    (user repoName dest timestamp ext : String) :
    Nat → Nat → List String → List Event × Nat × Nat × Option Int
  | t, bytes, [] => ([], t, bytes, none)
  | t, bytes, b :: bs =>
    if sig t then ([], t + 1, bytes, none)
    else
      match make_request_m net sig ReqKind.archive (t + 1)
          (archiveUrl user repoName b ext) with
      | (evs, t2, Except.error c) => (evs, t2, bytes, some c)
      | (evs, t2, Except.ok r) =>
        let path := destPath dest timestamp repoName b ext
        let rest := fetchBranches net sig user repoName dest timestamp ext t2
          (bytes + r.content.length) bs
        (evs ++ Event.writeFile path r.content :: rest.1, rest.2)

/-- Lines 213-239 of gbak.py: the outer `for repo in repos` loop.  For each
repository the branch list is `[default_branch]`, unless all-branches mode
is on, in which case one branch-list request is issued (before any
cancellation check) and its decoded branch names are used.  A process exit
inside `make_request` or the inner loop aborts everything; an inner-loop
`break` only ends that repository's branch loop, and iteration continues
with the next repository. -/
def fetchRepos (net : String → Resp) (sig : Nat → Bool)
    (user dest timestamp ext : String) (allBranches : Bool) :
    Nat → Nat → List Repo → List Event × Nat × Nat × Option Int
  | t, bytes, [] => ([], t, bytes, none)
  | t, bytes, repo :: rest =>
    if allBranches then
      match make_request_m net sig ReqKind.branchList t
          (branchesUrl user repo.name) with
      | (evs, t2, Except.error c) => (evs, t2, bytes, some c)
      | (evs, t2, Except.ok r) =>
        let inner := fetchBranches net sig user repo.name dest timestamp ext t2
          bytes r.branches
        match inner.2.2.2 with
        | some c => (evs ++ inner.1, inner.2.1, inner.2.2.1, some c)
        | none =>
          let outer := fetchRepos net sig user dest timestamp ext allBranches
            inner.2.1 inner.2.2.1 rest
          (evs ++ inner.1 ++ outer.1, outer.2)
    else
      let inner := fetchBranches net sig user repo.name dest timestamp ext t
        bytes [repo.default_branch]
      match inner.2.2.2 with
      | some c => (inner.1, inner.2.1, inner.2.2.1, some c)
      | none =>
        let outer := fetchRepos net sig user dest timestamp ext allBranches
          inner.2.1 inner.2.2.1 rest
        (inner.1 ++ outer.1, outer.2)

/-- The branch set computed for one repository (lines 218-222 of gbak.py):
the decoded branch-list response in all-branches mode, otherwise the
single-element list holding the default branch. -/
def branchPlan (net : String → Resp) (user : String) (allBranches : Bool)
    (r : Repo) : List String :=
  if allBranches then (net (branchesUrl user r.name)).branches
  else [r.default_branch]

/-- The run environment: command-line inputs, filesystem facts, the session
timestamp the clock will produce, the network oracle and the flag-read
schedule. -/
structure Env where
  user : String
  dest : String
  allBranches : Bool
  tarGz : Bool
  destIsDir : Bool
  mkdirOk : Bool
  timestamp : String
  net : String → Resp
  sig : Nat → Bool

/-- Lines 142-244 of gbak.py: the whole `__main__` block.  In program
order: destination-directory check (`exit(-1)` if absent, before any
request); repository search request; timestamp capture; the
`repos[0]['name']` shape check (an empty list raises an uncaught
`IndexError`, since only `KeyError` is handled); session-directory creation
(`exit(-1)` on `OSError`); the fetch loop; the final report, after which
the process ends with status 0. -/
def mainRun (e : Env) : List Event × Outcome :=
  let ext := if e.tarGz then "tar.gz" else "zip"
  let dest := normDest e.dest
  if e.destIsDir = false then ([], Outcome.exited (-1))
  else
    match make_request_m e.net e.sig ReqKind.search 0 (searchUrl e.user) with
    | (evs1, _, Except.error c) => (evs1, Outcome.exited c)
    | (evs1, t1, Except.ok r) =>
      match r.items with
      | [] => (evs1 ++ [Event.tsCapture], Outcome.uncaught)
      | _ :: _ =>
        if e.mkdirOk = false then
          (evs1 ++ [Event.tsCapture, Event.mkdirEvt (dest ++ e.timestamp)],
            Outcome.exited (-1))
        else
          let loop := fetchRepos e.net e.sig e.user dest e.timestamp ext
            e.allBranches t1 0 r.items
          match loop.2.2.2 with
          | some c =>
            (evs1 ++ Event.tsCapture :: Event.mkdirEvt (dest ++ e.timestamp) ::
              loop.1, Outcome.exited c)
          | none =>
            (evs1 ++ Event.tsCapture :: Event.mkdirEvt (dest ++ e.timestamp) ::
              loop.1 ++ [Event.reportEvt loop.2.2.1], Outcome.exited 0)

/-- The Python exceptions relevant to the `repos[0]['name']` shape check. -/
inductive PyErr
  | keyError
  | indexError
deriving DecidableEq

/-- Python subscript `item['name']` on a decoded JSON object, modelled as an
association list: a missing key raises `KeyError`. -/
def lookupKey (item : List (String × String)) (k : String) :
    Except PyErr String :=
  match item.find? (fun p => p.1 == k) with
  | some p => Except.ok p.2
  | none => Except.error PyErr.keyError

/-- Line 198 of gbak.py: the expression `repos[0]['name']`.  Indexing an
empty list raises `IndexError`; a present first element without a `name`
key raises `KeyError`. -/
def firstName (repos : List (List (String × String))) : Except PyErr String :=
  match repos with
  | [] => Except.error PyErr.indexError
  | item :: _ => lookupKey item "name"

/-- How the validation step ends: fall through to the rest of the run, take
the `except KeyError` diagnostic branch (log then `exit(-1)`), or crash
with an exception the handler does not catch. -/
inductive ValidateOutcome
  | proceed
  | diagnosticExit
  | uncaughtException
deriving DecidableEq

/-- Lines 197-201 of gbak.py: `try: _ = repos[0]['name'] except KeyError:
... exit(-1)`.  Only `KeyError` is handled; any other exception propagates. -/
def validateRepos (repos : List (List (String × String))) : ValidateOutcome :=
  match firstName repos with
  | Except.ok _ => ValidateOutcome.proceed
  | Except.error e =>
    if e = PyErr.keyError then ValidateOutcome.diagnosticExit
    else ValidateOutcome.uncaughtException

/-- The statements of gbak.py that touch the `SIGNINT` global during a run:
the signal handler's assignment `SIGNINT = True` (line 54) is the only
write; every other mention (lines 99 and 225) is a read. -/
inductive FlagOp
  | handlerSet
  | readFlag
deriving DecidableEq

/-- Effect of one statement on the `SIGNINT` flag. -/
def stepFlag : Bool → FlagOp → Bool
  | _, FlagOp.handlerSet => true
  | b, FlagOp.readFlag => b

/-- The flag value after a sequence of statements, starting from `b`
(line 37 initializes the flag to `False` at module load). -/
def runFlag (b : Bool) (ops : List FlagOp) : Bool :=
  ops.foldl stepFlag b

/-- Network oracle with two repositories, each with one branch named `m`;
never rate limited, always HTTP-successful. -/
def netC1 : String → Resp := fun u =>
  { items := if u = searchUrl "u" then [⟨"r1", "m"⟩, ⟨"r2", "m"⟩] else [],
    branches := if u = searchUrl "u" then [] else ["m"] }

/-- C1 counterexample run: all-branches mode, cancellation already
requested before the fetch loop starts. -/
def envC1 : Env :=
  { user := "u", dest := "d/", allBranches := true, tarGz := false,
    destIsDir := true, mkdirOk := true, timestamp := "ts",
    net := netC1, sig := fun _ => true }

/-- Network oracle with a single one-branch repository and a 2-byte
archive body, never rate limited and always HTTP-successful. -/
def netOneRepo : String → Resp := fun _ =>
  { content := [7, 9], items := [⟨"r", "m"⟩] }

/-- C3 counterexample run: everything succeeds, cancellation already
requested, so the trace is just Init/Enumerate plus the empty loop. -/
def envC3 : Env :=
  { user := "u", dest := "d/", allBranches := false, tarGz := false,
    destIsDir := true, mkdirOk := true, timestamp := "ts",
    net := netOneRepo, sig := fun _ => true }

/-- Environment for the C4 witness: the destination directory is absent. -/
def envC4 : Env :=
  { user := "u", dest := "d/", allBranches := false, tarGz := false,
    destIsDir := false, mkdirOk := true, timestamp := "ts",
    net := netOneRepo, sig := fun _ => false }

/-- A fully successful single-repository run (no cancellation, no rate
limiting): used to witness the universally quantified theorems. -/
def envGood : Env :=
  { user := "u", dest := "d/", allBranches := false, tarGz := false,
    destIsDir := true, mkdirOk := true, timestamp := "ts",
    net := netOneRepo, sig := fun _ => false }

/-- Network oracle for the C8 counterexample: the archive response carries
`X-RateLimit-Remaining: 5`, triggering the backoff wait. -/
def netC8 : String → Resp := fun u =>
  if u = archiveUrl "u" "r" "m" "zip" then
    { remaining := some 5, content := [7, 9], items := [⟨"r", "m"⟩] }
  else { items := [⟨"r", "m"⟩] }

/-- C8 counterexample run: cancellation is delivered during the backoff
wait of the first archive download (the flag is false at the branch check,
poll 0, and true from poll 1 on). -/
def envC8 : Env :=
  { user := "u", dest := "d/", allBranches := false, tarGz := false,
    destIsDir := true, mkdirOk := true, timestamp := "ts",
    net := netC8, sig := fun i => decide (1 ≤ i) }

/-- Environment for the C9 theorem: the search endpoint returns an empty
repository list. -/
def envC9 : Env :=
  { user := "u", dest := "d/", allBranches := false, tarGz := false,
    destIsDir := true, mkdirOk := true, timestamp := "ts",
    net := fun _ => { }, sig := fun _ => false }

/-- Network oracle whose every response is an HTTP failure (without
rate-limit metadata). -/
def netFail : String → Resp := fun _ => { ok := false }

/-- A run against `netFail`: the repository-list fetch fails. -/
def envFail : Env :=
  { user := "u", dest := "d/", allBranches := false, tarGz := false,
    destIsDir := true, mkdirOk := true, timestamp := "ts",
    net := netFail, sig := fun _ => false }

theorem writesOf_append (l1 l2 : List Event) :
    writesOf (l1 ++ l2) = writesOf l1 ++ writesOf l2 := by
  simp [writesOf, List.filterMap_append]

theorem requestsOf_append (l1 l2 : List Event) :
    requestsOf (l1 ++ l2) = requestsOf l1 ++ requestsOf l2 := by
  simp [requestsOf, List.filterMap_append]

theorem sumWrites_append (l1 l2 : List Event) :
    sumWrites (l1 ++ l2) = sumWrites l1 + sumWrites l2 := by
  simp [sumWrites, writesOf_append]

theorem writesOf_cons_request (k : ReqKind) (u : String) (l : List Event) :
    writesOf (Event.request k u :: l) = writesOf l := by
  simp [writesOf]

theorem requestsOf_cons_request (k : ReqKind) (u : String) (l : List Event) :
    requestsOf (Event.request k u :: l) = (k, u) :: requestsOf l := by
  simp [requestsOf]

theorem writesOf_nil : writesOf [] = [] := rfl

theorem requestsOf_nil : requestsOf [] = [] := rfl

theorem writesOf_replicate_sleep (n : Nat) :
    writesOf (List.replicate n Event.sleep) = [] := by
  simp [writesOf, List.filterMap_replicate]

theorem requestsOf_replicate_sleep (n : Nat) :
    requestsOf (List.replicate n Event.sleep) = [] := by
  simp [requestsOf, List.filterMap_replicate]

-- The sleep events produced by the embedded rate-limit check.
theorem rlc_m_shape (sig : Nat → Bool) (t : Nat) (remaining : Option Int) :
    ∃ n, (rlc_m sig t remaining).1 = List.replicate n Event.sleep := by
  unfold rlc_m
  split
  · rcases h : backoffLoop sig RATE_LIMIT_WAIT_TIME_S t with p | p <;> simp [h]
  · exact ⟨0, rfl⟩

-- The event trace of `make_request` is the request itself followed by the
-- backoff sleeps.
theorem make_request_m_events (net : String → Resp) (sig : Nat → Bool)
    (k : ReqKind) (t : Nat) (url : String) :
    ∃ n, (make_request_m net sig k t url).1 =
      Event.request k url :: List.replicate n Event.sleep := by
  obtain ⟨n, hn⟩ := rlc_m_shape sig t (net url).remaining
  refine ⟨n, ?_⟩
  unfold make_request_m
  dsimp only
  split
  · simpa using hn
  · split <;> simpa using hn

theorem make_request_m_writes (net : String → Resp) (sig : Nat → Bool)
    (k : ReqKind) (t : Nat) (url : String) :
    writesOf (make_request_m net sig k t url).1 = [] := by
  obtain ⟨n, hn⟩ := make_request_m_events net sig k t url
  rw [hn]
  simp [writesOf, writesOf_replicate_sleep n]

theorem make_request_m_requests (net : String → Resp) (sig : Nat → Bool)
    (k : ReqKind) (t : Nat) (url : String) :
    requestsOf (make_request_m net sig k t url).1 = [(k, url)] := by
  obtain ⟨n, hn⟩ := make_request_m_events net sig k t url
  rw [hn]
  simp [requestsOf, requestsOf_replicate_sleep n]

-- When the response is neither rate limited nor an HTTP failure,
-- `make_request` is a single request event returning the response.
theorem make_request_m_ok (net : String → Resp) (sig : Nat → Bool)
    (k : ReqKind) (t : Nat) (url : String)
    (hl : lowQuota (net url).remaining = false)
    (hk : (net url).ok = true) :
    make_request_m net sig k t url =
      ([Event.request k url], t, Except.ok (net url)) := by
  simp [make_request_m, rlc_m, hl, hk]

-- An HTTP failure (still without rate limiting) exits with code -1.
theorem make_request_m_fail (net : String → Resp) (sig : Nat → Bool)
    (k : ReqKind) (t : Nat) (url : String)
    (hl : lowQuota (net url).remaining = false)
    (hk : (net url).ok = false) :
    make_request_m net sig k t url =
      ([Event.request k url], t, Except.error (-1)) := by
  simp [make_request_m, rlc_m, hl, hk]

-- Full run of the inner branch loop when cancellation never fires and no
-- response is rate limited or failing: one request and one full-body write
-- per branch, in order, with the byte counter accumulating body lengths.
theorem fetchBranches_run (net : String → Resp) (sig : Nat → Bool)
    (user rn dest ts ext : String)
    (hs : ∀ i, sig i = false)
    (hl : ∀ u, lowQuota ((net u).remaining) = false)
    (hk : ∀ u, (net u).ok = true) :
    ∀ (bs : List String) (t bytes : Nat),
      fetchBranches net sig user rn dest ts ext t bytes bs =
        (bs.flatMap fun b =>
          [Event.request ReqKind.archive (archiveUrl user rn b ext),
           Event.writeFile (destPath dest ts rn b ext)
             ((net (archiveUrl user rn b ext)).content)],
         t + bs.length,
         bytes + (bs.map fun b =>
           ((net (archiveUrl user rn b ext)).content).length).sum,
         none) := by
  intro bs
  induction bs with
  | nil => intro t bytes; simp [fetchBranches]
  | cons b bs ih =>
    intro t bytes
    rw [fetchBranches, make_request_m_ok net sig ReqKind.archive (t + 1) _
      (hl _) (hk _)]
    simp [hs t, ih, Nat.add_assoc, Nat.add_comm, Nat.add_left_comm]

-- Full run of the outer repository loop under the same assumptions.
theorem fetchRepos_run (net : String → Resp) (sig : Nat → Bool)
    (user dest ts ext : String) (allB : Bool)
    (hs : ∀ i, sig i = false)
    (hl : ∀ u, lowQuota ((net u).remaining) = false)
    (hk : ∀ u, (net u).ok = true) :
    ∀ (repos : List Repo) (t bytes : Nat),
      fetchRepos net sig user dest ts ext allB t bytes repos =
        (repos.flatMap fun r =>
          (if allB then
            [Event.request ReqKind.branchList (branchesUrl user r.name)]
          else []) ++
          ((branchPlan net user allB r).flatMap fun b =>
            [Event.request ReqKind.archive (archiveUrl user r.name b ext),
             Event.writeFile (destPath dest ts r.name b ext)
               ((net (archiveUrl user r.name b ext)).content)]),
         t + (repos.map fun r => (branchPlan net user allB r).length).sum,
         bytes + (repos.map fun r =>
           ((branchPlan net user allB r).map fun b =>
             ((net (archiveUrl user r.name b ext)).content).length).sum).sum,
         none) := by
  intro repos
  induction repos with
  | nil => intro t bytes; simp [fetchRepos]
  | cons repo rest ih =>
    intro t bytes
    cases allB with
    | false =>
      rw [fetchRepos]
      simp [fetchBranches_run net sig user repo.name dest ts ext hs hl hk,
        ih, branchPlan, Nat.add_assoc, Nat.add_comm, Nat.add_left_comm]
    | true =>
      rw [fetchRepos]
      simp [make_request_m_ok net sig ReqKind.branchList t _ (hl _) (hk _),
        fetchBranches_run net sig user repo.name dest ts ext hs hl hk,
        ih, branchPlan, Nat.add_assoc, Nat.add_comm, Nat.add_left_comm]

-- When the cancellation flag is set, the branch loop breaks at its first
-- iteration: no event, no byte, no exit.
theorem fetchBranches_cancelled (net : String → Resp) (sig : Nat → Bool)
    (user rn dest ts ext : String)
    (hs : ∀ i, sig i = true) :
    ∀ (bs : List String) (t bytes : Nat),
      (fetchBranches net sig user rn dest ts ext t bytes bs).1 = []
      ∧ (fetchBranches net sig user rn dest ts ext t bytes bs).2.2.1 = bytes
      ∧ (fetchBranches net sig user rn dest ts ext t bytes bs).2.2.2 = none := by
  intro bs t bytes
  cases bs with
  | nil => simp [fetchBranches]
  | cons b bs2 => simp [fetchBranches, hs t]

-- When the cancellation flag is set, the remainder of the fetch loop
-- writes nothing, fetches no archive, leaves the byte counter unchanged,
-- and still issues one branch-list request per remaining repository in
-- all-branches mode.
theorem fetchRepos_cancelled (net : String → Resp) (sig : Nat → Bool)
    (user dest ts ext : String) (allB : Bool)
    (hs : ∀ i, sig i = true)
    (hl : ∀ u, lowQuota ((net u).remaining) = false)
    (hk : ∀ u, (net u).ok = true) :
    ∀ (repos : List Repo) (t bytes : Nat),
      writesOf (fetchRepos net sig user dest ts ext allB t bytes repos).1 = []
      ∧ (fetchRepos net sig user dest ts ext allB t bytes repos).2.2.1 = bytes
      ∧ (fetchRepos net sig user dest ts ext allB t bytes repos).2.2.2 = none
      ∧ requestsOf (fetchRepos net sig user dest ts ext allB t bytes repos).1 =
          (if allB then
            repos.map fun r => (ReqKind.branchList, branchesUrl user r.name)
          else []) := by
  intro repos
  induction repos with
  | nil =>
    intro t bytes
    cases allB <;> simp [fetchRepos, writesOf, requestsOf]
  | cons repo rest ih =>
    intro t bytes
    have hfb := fetchBranches_cancelled net sig user repo.name dest ts ext hs
    cases allB with
    | false =>
      obtain ⟨h1, h2, h3⟩ := hfb [repo.default_branch] t bytes
      simp only [fetchRepos, h3]
      obtain ⟨i1, i2, i3, i4⟩ := ih
        (fetchBranches net sig user repo.name dest ts ext t bytes
          [repo.default_branch]).2.1 bytes
      simp only [h2] at i1 i2 i3 i4 ⊢
      simp [writesOf_append, requestsOf_append, h1, h2, i1, i2, i3, i4]
    | true =>
      rw [fetchRepos, make_request_m_ok net sig ReqKind.branchList t _
        (hl _) (hk _)]
      obtain ⟨h1, h2, h3⟩ := hfb (net (branchesUrl user repo.name)).branches
        t bytes
      simp only [h3]
      obtain ⟨i1, i2, i3, i4⟩ := ih
        (fetchBranches net sig user repo.name dest ts ext t bytes
          (net (branchesUrl user repo.name)).branches).2.1 bytes
      simp only [h2] at i1 i2 i3 i4 ⊢
      simp [writesOf_append, requestsOf_append, writesOf_cons_request,
        requestsOf_cons_request, writesOf_nil, requestsOf_nil,
        h1, h2, i1, i2, i3, i4]

-- A successful `make_request` returns exactly the oracle's response for
-- its URL, untransformed.
theorem make_request_m_ok_resp (net : String → Resp) (sig : Nat → Bool)
    (k : ReqKind) (t : Nat) (url : String) (r : Resp)
    (h : (make_request_m net sig k t url).2.2 = Except.ok r) :
    r = net url := by
  unfold make_request_m at h
  dsimp only at h
  split at h
  · simp at h
  · split at h
    · simpa using h.symm
    · simp at h

-- Every write performed by the branch loop, under any flag schedule and
-- any oracle, writes the archive response body of one of its branches to
-- that branch's destination path.
theorem fetchBranches_writes_any (net : String → Resp) (sig : Nat → Bool)
    (user rn dest ts ext : String) :
    ∀ (bs : List String) (t bytes : Nat) (p : String) (c : List Nat),
      (p, c) ∈ writesOf (fetchBranches net sig user rn dest ts ext t bytes bs).1 →
      ∃ b, p = destPath dest ts rn b ext ∧
        c = (net (archiveUrl user rn b ext)).content := by
  intro bs
  induction bs with
  | nil => intro t bytes p c h; simp [fetchBranches, writesOf_nil] at h
  | cons b bs2 ih =>
    intro t bytes p c h
    rw [fetchBranches] at h
    by_cases hsig : sig t
    · simp [hsig, writesOf_nil] at h
    · simp only [hsig, Bool.false_eq_true, if_false] at h
      rcases hmr : make_request_m net sig ReqKind.archive (t + 1)
        (archiveUrl user rn b ext) with ⟨evs, t2, res⟩
      have hevs : evs = (make_request_m net sig ReqKind.archive (t + 1)
          (archiveUrl user rn b ext)).1 := by rw [hmr]
      rw [hmr] at h
      cases res with
      | error c0 =>
        rw [hevs, make_request_m_writes] at h
        simp at h
      | ok r =>
        have hr : r = net (archiveUrl user rn b ext) :=
          make_request_m_ok_resp net sig ReqKind.archive (t + 1) _ r
            (by rw [hmr])
        simp only [writesOf_append, hevs, make_request_m_writes,
          List.nil_append] at h
        rw [show writesOf (Event.writeFile (destPath dest ts rn b ext)
            r.content :: (fetchBranches net sig user rn dest ts ext t2
              (bytes + r.content.length) bs2).1) =
            (destPath dest ts rn b ext, r.content) ::
              writesOf (fetchBranches net sig user rn dest ts ext t2
                (bytes + r.content.length) bs2).1 from by simp [writesOf]]
          at h
        rcases List.mem_cons.mp h with h1 | h2
        · exact ⟨b, by simp at h1; exact ⟨h1.1, by rw [h1.2, hr]⟩⟩
        · exact ih t2 (bytes + r.content.length) p c h2

-- Byte accounting for the branch loop under any schedule: the counter
-- grows by exactly the lengths of the bodies recorded by the write events.
theorem fetchBranches_bytes_any (net : String → Resp) (sig : Nat → Bool)
    (user rn dest ts ext : String) :
    ∀ (bs : List String) (t bytes : Nat),
      (fetchBranches net sig user rn dest ts ext t bytes bs).2.2.1 =
        bytes + sumWrites (fetchBranches net sig user rn dest ts ext t bytes bs).1 := by
  intro bs
  induction bs with
  | nil => intro t bytes; simp [fetchBranches, sumWrites, writesOf_nil]
  | cons b bs2 ih =>
    intro t bytes
    rw [fetchBranches]
    by_cases hsig : sig t
    · simp [hsig, sumWrites, writesOf_nil]
    · simp only [hsig, Bool.false_eq_true, if_false]
      rcases hmr : make_request_m net sig ReqKind.archive (t + 1)
        (archiveUrl user rn b ext) with ⟨evs, t2, res⟩
      have hevs : evs = (make_request_m net sig ReqKind.archive (t + 1)
          (archiveUrl user rn b ext)).1 := by rw [hmr]
      cases res with
      | error c0 =>
        simp [sumWrites, hevs, make_request_m_writes]
      | ok r =>
        have hw : sumWrites evs = 0 := by
          simp [sumWrites, hevs, make_request_m_writes]
        simp only [sumWrites_append, hw, Nat.zero_add]
        rw [show sumWrites (Event.writeFile (destPath dest ts rn b ext)
            r.content :: (fetchBranches net sig user rn dest ts ext t2
              (bytes + r.content.length) bs2).1) =
            r.content.length + sumWrites (fetchBranches net sig user rn dest
              ts ext t2 (bytes + r.content.length) bs2).1 from by
          simp [sumWrites, writesOf]]
        rw [ih t2 (bytes + r.content.length)]
        omega

-- The branch loop never exits the process when no response is rate
-- limited or failing, whatever the flag does at the branch checks.
theorem fetchBranches_noExit (net : String → Resp) (sig : Nat → Bool)
    (user rn dest ts ext : String)
    (hl : ∀ u, lowQuota ((net u).remaining) = false)
    (hk : ∀ u, (net u).ok = true) :
    ∀ (bs : List String) (t bytes : Nat),
      (fetchBranches net sig user rn dest ts ext t bytes bs).2.2.2 = none := by
  intro bs
  induction bs with
  | nil => intro t bytes; simp [fetchBranches]
  | cons b bs2 ih =>
    intro t bytes
    rw [fetchBranches]
    by_cases hsig : sig t
    · simp [hsig]
    · simp only [hsig, Bool.false_eq_true, if_false]
      rw [make_request_m_ok net sig ReqKind.archive (t + 1) _ (hl _) (hk _)]
      simpa using ih (t + 1) (bytes + ((net (archiveUrl user rn b ext)).content).length)

-- Lifting of `fetchBranches_writes_any` over the repository loop.
theorem fetchRepos_writes_any (net : String → Resp) (sig : Nat → Bool)
    (user dest ts ext : String) (allB : Bool) :
    ∀ (repos : List Repo) (t bytes : Nat) (p : String) (c : List Nat),
      (p, c) ∈ writesOf (fetchRepos net sig user dest ts ext allB t bytes repos).1 →
      ∃ rn b, p = destPath dest ts rn b ext ∧
        c = (net (archiveUrl user rn b ext)).content := by
  intro repos
  induction repos with
  | nil => intro t bytes p c h; simp [fetchRepos, writesOf_nil] at h
  | cons repo rest ih =>
    intro t bytes p c h
    cases allB with
    | true =>
      rw [fetchRepos] at h
      rw [if_pos rfl] at h
      rcases hmr : make_request_m net sig ReqKind.branchList t
        (branchesUrl user repo.name) with ⟨evs, t2, res⟩
      have hevs : evs = (make_request_m net sig ReqKind.branchList t
          (branchesUrl user repo.name)).1 := by rw [hmr]
      rw [hmr] at h
      cases res with
      | error c0 =>
        dsimp only at h
        rw [hevs, make_request_m_writes] at h
        simp at h
      | ok r =>
        dsimp only at h
        rcases hinner : (fetchBranches net sig user repo.name dest ts ext t2
            bytes r.branches).2.2.2 with _ | c0 <;> rw [hinner] at h <;>
          dsimp only at h <;>
          rw [hevs] at h <;>
          simp only [writesOf_append, make_request_m_writes, List.nil_append,
            List.mem_append] at h
        · rcases h with h1 | h2
          · obtain ⟨b, hb1, hb2⟩ := fetchBranches_writes_any net sig user
              repo.name dest ts ext r.branches t2 bytes p c h1
            exact ⟨repo.name, b, hb1, hb2⟩
          · exact ih _ _ p c h2
        · obtain ⟨b, hb1, hb2⟩ := fetchBranches_writes_any net sig user
            repo.name dest ts ext r.branches t2 bytes p c h
          exact ⟨repo.name, b, hb1, hb2⟩
    | false =>
      rw [fetchRepos] at h
      rw [if_neg (by simp)] at h
      dsimp only at h
      rcases hinner : (fetchBranches net sig user repo.name dest ts ext t
          bytes [repo.default_branch]).2.2.2 with _ | c0
      · rw [hinner] at h
        dsimp only at h
        simp only [writesOf_append, List.mem_append] at h
        rcases h with h1 | h2
        · obtain ⟨b, hb1, hb2⟩ := fetchBranches_writes_any net sig user
            repo.name dest ts ext [repo.default_branch] t bytes p c h1
          exact ⟨repo.name, b, hb1, hb2⟩
        · exact ih _ _ p c h2
      · rw [hinner] at h
        dsimp only at h
        obtain ⟨b, hb1, hb2⟩ := fetchBranches_writes_any net sig user
          repo.name dest ts ext [repo.default_branch] t bytes p c h
        exact ⟨repo.name, b, hb1, hb2⟩

-- Byte accounting for the repository loop under any schedule: the counter
-- grows by exactly the lengths of the bodies recorded by the write events.
theorem fetchRepos_bytes_any (net : String → Resp) (sig : Nat → Bool)
    (user dest ts ext : String) (allB : Bool) :
    ∀ (repos : List Repo) (t bytes : Nat),
      (fetchRepos net sig user dest ts ext allB t bytes repos).2.2.1 =
        bytes + sumWrites (fetchRepos net sig user dest ts ext allB t bytes repos).1 := by
  intro repos
  induction repos with
  | nil => intro t bytes; simp [fetchRepos, sumWrites, writesOf_nil]
  | cons repo rest ih =>
    intro t bytes
    cases allB with
    | true =>
      rw [fetchRepos, if_pos rfl]
      rcases hmr : make_request_m net sig ReqKind.branchList t
        (branchesUrl user repo.name) with ⟨evs, t2, res⟩
      have hevs : sumWrites evs = 0 := by
        have he : evs = (make_request_m net sig ReqKind.branchList t
            (branchesUrl user repo.name)).1 := by rw [hmr]
        simp [sumWrites, he, make_request_m_writes, writesOf_nil]
      have hfb := fetchBranches_bytes_any net sig user repo.name dest ts ext
      cases res with
      | error c0 =>
        dsimp only
        rw [hevs]
        omega
      | ok r =>
        dsimp only
        rcases hinner : (fetchBranches net sig user repo.name dest ts ext t2
            bytes r.branches).2.2.2 with _ | c0
        · dsimp only
          rw [ih _ _, sumWrites_append, sumWrites_append, hevs,
            hfb r.branches t2 bytes]
          omega
        · dsimp only
          rw [sumWrites_append, hevs, hfb r.branches t2 bytes]
          omega
    | false =>
      rw [fetchRepos, if_neg (by simp)]
      dsimp only
      have hfb := fetchBranches_bytes_any net sig user repo.name dest ts ext
      rcases hinner : (fetchBranches net sig user repo.name dest ts ext t
          bytes [repo.default_branch]).2.2.2 with _ | c0
      · dsimp only
        rw [ih _ _, sumWrites_append, hfb [repo.default_branch] t bytes]
        omega
      · dsimp only
        exact hfb [repo.default_branch] t bytes

-- The repository loop never exits the process when no response is rate
-- limited or failing, whatever the flag does: an inner-loop break merely
-- moves on to the next repository.
theorem fetchRepos_noExit (net : String → Resp) (sig : Nat → Bool)
    (user dest ts ext : String) (allB : Bool)
    (hl : ∀ u, lowQuota ((net u).remaining) = false)
    (hk : ∀ u, (net u).ok = true) :
    ∀ (repos : List Repo) (t bytes : Nat),
      (fetchRepos net sig user dest ts ext allB t bytes repos).2.2.2 = none := by
  intro repos
  induction repos with
  | nil => intro t bytes; simp [fetchRepos]
  | cons repo rest ih =>
    intro t bytes
    cases allB with
    | true =>
      rw [fetchRepos, if_pos rfl,
        make_request_m_ok net sig ReqKind.branchList t _ (hl _) (hk _)]
      dsimp only
      rw [fetchBranches_noExit net sig user repo.name dest ts ext hl hk]
      dsimp only
      exact ih _ _
    | false =>
      rw [fetchRepos, if_neg (by simp)]
      dsimp only
      rw [fetchBranches_noExit net sig user repo.name dest ts ext hl hk]
      dsimp only
      exact ih _ _

theorem writesOf_cons_ts (l : List Event) :
    writesOf (Event.tsCapture :: l) = writesOf l := by
  simp [writesOf]

theorem writesOf_cons_mkdir (p : String) (l : List Event) :
    writesOf (Event.mkdirEvt p :: l) = writesOf l := by
  simp [writesOf]

theorem writesOf_concat_report (n : Nat) (l : List Event) :
    writesOf (l ++ [Event.reportEvt n]) = writesOf l := by
  simp [writesOf_append, writesOf]

theorem writesOf_singleton_report (n : Nat) :
    writesOf [Event.reportEvt n] = [] := rfl

-- If the flag stays false through the whole backoff window, the loop
-- completes, having slept once per iteration.
theorem backoffLoop_all_false (sig : Nat → Bool) :
    ∀ (fuel s : Nat), (∀ i, i < fuel → sig (s + i) = false) →
      backoffLoop sig fuel s = Sum.inr (s + fuel) := by
  intro fuel
  induction fuel with
  | zero => intro s h; simp [backoffLoop]
  | succ k ih =>
    intro s h
    have h0 : sig s = false := by simpa using h 0 (by omega)
    rw [backoffLoop, h0]
    simp only [Bool.false_eq_true, if_false]
    rw [ih (s + 1) fun i hi => by
      have hh := h (i + 1) (by omega)
      rwa [show s + (i + 1) = s + 1 + i by omega] at hh]
    rw [show s + 1 + k = s + (k + 1) by omega]

-- If the flag first turns true at poll `s + m` within the window, the loop
-- exits at that poll, i.e. after exactly `m` sleeps past `s`.
theorem backoffLoop_first_true (sig : Nat → Bool) :
    ∀ (m fuel s : Nat), m < fuel → (∀ i, i < m → sig (s + i) = false) →
      sig (s + m) = true → backoffLoop sig fuel s = Sum.inl (s + m) := by
  intro m
  induction m with
  | zero =>
    intro fuel s hlt h0 ht
    cases fuel with
    | zero => omega
    | succ k =>
      rw [backoffLoop, show sig s = true by simpa using ht]
      simp
  | succ m ih =>
    intro fuel s hlt h0 ht
    cases fuel with
    | zero => omega
    | succ k =>
      have hs : sig s = false := by simpa using h0 0 (by omega)
      rw [backoffLoop, hs]
      simp only [Bool.false_eq_true, if_false]
      rw [ih k (s + 1) (by omega)
        (fun i hi => by
          have hh := h0 (i + 1) (by omega)
          rwa [show s + (i + 1) = s + 1 + i by omega] at hh)
        (by rwa [show s + (m + 1) = s + 1 + m by omega] at ht)]
      rw [show s + 1 + m = s + (m + 1) by omega]

-- Splitting a character list at its first underscore is unambiguous when
-- the prefixes themselves are underscore-free.
theorem underscore_split :
    ∀ (l1 l2 m1 m2 : List Char), '_' ∉ l1 → '_' ∉ l2 →
      l1 ++ '_' :: m1 = l2 ++ '_' :: m2 → l1 = l2 ∧ m1 = m2 := by
  intro l1
  induction l1 with
  | nil =>
    intro l2 m1 m2 h1 h2 heq
    cases l2 with
    | nil => simpa using heq
    | cons c t =>
      simp only [List.nil_append, List.cons_append, List.cons.injEq] at heq
      exact absurd (heq.1 ▸ List.mem_cons_self c t) h2
  | cons a l ih =>
    intro l2 m1 m2 h1 h2 heq
    cases l2 with
    | nil =>
      simp only [List.nil_append, List.cons_append, List.cons.injEq] at heq
      exact absurd (heq.1.symm ▸ List.mem_cons_self a l) h1
    | cons c t =>
      simp only [List.cons_append, List.cons.injEq] at heq
      obtain ⟨rfl, htail⟩ := heq
      obtain ⟨e1, e2⟩ := ih t m1 m2
        (fun hm => h1 (List.mem_cons_of_mem _ hm))
        (fun hm => h2 (List.mem_cons_of_mem _ hm)) htail
      exact ⟨by rw [e1], e2⟩

-- Injectivity of the destination-path construction on (repository, branch)
-- pairs, provided the repository names contain no underscore.
theorem destPath_inj (d ts ext r1 b1 r2 b2 : String)
    (h1 : '_' ∉ r1.data) (h2 : '_' ∉ r2.data)
    (heq : destPath d ts r1 b1 ext = destPath d ts r2 b2 ext) :
    r1 = r2 ∧ b1 = b2 := by
  have hd := congrArg String.data heq
  simp only [destPath, String.data_append, List.append_assoc] at hd
  have hd2 := List.append_cancel_left (List.append_cancel_left
    (List.append_cancel_left hd))
  simp only [List.singleton_append] at hd2
  obtain ⟨hr, hm⟩ := underscore_split r1.data r2.data _ _ h1 h2 hd2
  exact ⟨String.ext hr, String.ext (List.append_cancel_right hm)⟩

-- The flag semantics: `stepFlag` never takes the flag from true to false,
-- and the handler write forces it true.
theorem runFlag_true (ops : List FlagOp) : runFlag true ops = true := by
  induction ops with
  | nil => rfl
  | cons op rest ih =>
    cases op with
    | handlerSet => simpa [runFlag, stepFlag] using ih
    | readFlag => simpa [runFlag, stepFlag] using ih

-- A run in which the destination exists, the session directory is
-- creatable, every response is HTTP-successful and none is rate limited:
-- whatever the cancellation flag does at the branch checks, the run ends
-- with the final report and status 0.
theorem mainRun_good (e : Env) (hd : e.destIsDir = true) (hm : e.mkdirOk = true)
    (hl : ∀ u, lowQuota ((e.net u).remaining) = false)
    (hk : ∀ u, (e.net u).ok = true)
    (hne : (e.net (searchUrl e.user)).items ≠ []) :
    mainRun e =
      (Event.request ReqKind.search (searchUrl e.user) :: Event.tsCapture ::
        Event.mkdirEvt (normDest e.dest ++ e.timestamp) ::
        ((fetchRepos e.net e.sig e.user (normDest e.dest) e.timestamp
            (if e.tarGz then "tar.gz" else "zip") e.allBranches 0 0
            (e.net (searchUrl e.user)).items).1 ++
          [Event.reportEvt (fetchRepos e.net e.sig e.user (normDest e.dest)
            e.timestamp (if e.tarGz then "tar.gz" else "zip") e.allBranches 0 0
            (e.net (searchUrl e.user)).items).2.2.1]),
       Outcome.exited 0) := by
  unfold mainRun
  rw [if_neg (by simp [hd]),
    make_request_m_ok e.net e.sig ReqKind.search 0 _ (hl _) (hk _)]
  dsimp only
  rcases hitems : (e.net (searchUrl e.user)).items with _ | ⟨r0, rs⟩
  · exact absurd hitems hne
  · dsimp only
    rw [if_neg (by simp [hm])]
    rw [fetchRepos_noExit e.net e.sig e.user (normDest e.dest) e.timestamp
      (if e.tarGz then "tar.gz" else "zip") e.allBranches hl hk]
    rfl

-- Every write event of any run whatsoever is a full archive body written
-- to its branch's destination path.
theorem mainRun_writes_any (e : Env) :
    ∀ (p : String) (c : List Nat),
      (p, c) ∈ writesOf (mainRun e).1 →
      ∃ rn b, p = destPath (normDest e.dest) e.timestamp rn b
          (if e.tarGz then "tar.gz" else "zip") ∧
        c = (e.net (archiveUrl e.user rn b
          (if e.tarGz then "tar.gz" else "zip"))).content := by
  intro p c h
  unfold mainRun at h
  by_cases hd : e.destIsDir = false
  · rw [if_pos hd] at h
    simp [writesOf_nil] at h
  · rw [if_neg hd] at h
    rcases hmr : make_request_m e.net e.sig ReqKind.search 0 (searchUrl e.user)
      with ⟨evs1, t1, res⟩
    have hevs : evs1 = (make_request_m e.net e.sig ReqKind.search 0
        (searchUrl e.user)).1 := by rw [hmr]
    rw [hmr] at h
    cases res with
    | error c0 =>
      dsimp only at h
      rw [hevs, make_request_m_writes] at h
      simp at h
    | ok r =>
      dsimp only at h
      rcases hitems : r.items with _ | ⟨r0, rs⟩
      · rw [hitems] at h
        dsimp only at h
        rw [writesOf_append, hevs, make_request_m_writes] at h
        simp [writesOf] at h
      · rw [hitems] at h
        dsimp only at h
        by_cases hm : e.mkdirOk = false
        · rw [if_pos hm] at h
          rw [writesOf_append, hevs, make_request_m_writes] at h
          simp [writesOf] at h
        · rw [if_neg hm] at h
          have hri : r = e.net (searchUrl e.user) :=
            make_request_m_ok_resp e.net e.sig ReqKind.search 0 _ r
              (by rw [hmr])
          rcases hloop : (fetchRepos e.net e.sig e.user (normDest e.dest)
              e.timestamp (if e.tarGz then "tar.gz" else "zip") e.allBranches
              t1 0 (r0 :: rs)).2.2.2 with _ | c0
          · rw [hloop] at h
            dsimp only at h
            rw [hevs] at h
            simp only [writesOf_append, make_request_m_writes,
              writesOf_cons_ts, writesOf_cons_mkdir,
              writesOf_singleton_report, List.nil_append, List.append_nil]
              at h
            exact fetchRepos_writes_any e.net e.sig e.user (normDest e.dest)
              e.timestamp _ e.allBranches (r0 :: rs) t1 0 p c h
          · rw [hloop] at h
            dsimp only at h
            rw [hevs] at h
            simp only [writesOf_append, make_request_m_writes,
              writesOf_cons_ts, writesOf_cons_mkdir,
              writesOf_singleton_report, List.nil_append, List.append_nil]
              at h
            exact fetchRepos_writes_any e.net e.sig e.user (normDest e.dest)
              e.timestamp _ e.allBranches (r0 :: rs) t1 0 p c h

/-- C2 counterexample: the claim "for every two distinct (repository,
branch) pairs within one session, the computed destination paths are
distinct" fails, because `repo_name + "_" + branch` is not injective: the
distinct pairs ("a_b", "c") and ("a", "b_c") map to the same path. -/
theorem C2_counterexample :
    destPath "d/" "ts" "a_b" "c" "zip" = destPath "d/" "ts" "a" "b_c" "zip" ∧
    (("a_b", "c") : String × String) ≠ ("a", "b_c") := by
  exact ⟨rfl, by decide⟩

/-- C2 (amended): for identical (destination, timestamp, repository,
branch, format) inputs the computed destination path is always the same;
and two distinct (repository, branch) pairs get distinct paths provided
the repository names contain no underscore. -/
theorem C2_path_determinism_and_injectivity :
    (∀ d ts ext r b : String,
      destPath d ts r b ext = destPath d ts r b ext) ∧
    (∀ d ts ext r1 b1 r2 b2 : String, '_' ∉ r1.data → '_' ∉ r2.data →
      (r1, b1) ≠ (r2, b2) →
      destPath d ts r1 b1 ext ≠ destPath d ts r2 b2 ext) := by
  refine ⟨fun d ts ext r b => rfl, ?_⟩
  intro d ts ext r1 b1 r2 b2 h1 h2 hne heq
  obtain ⟨e1, e2⟩ := destPath_inj d ts ext r1 b1 r2 b2 h1 h2 heq
  exact hne (by rw [e1, e2])

/-- Witness for C2 at concrete underscore-free repository names. -/
theorem C2_witness :
    ('_' ∉ ("a" : String).data) ∧ ('_' ∉ ("b" : String).data) ∧
    ((("a", "x") : String × String) ≠ ("b", "y")) ∧
    destPath "d/" "ts" "a" "x" "zip" ≠ destPath "d/" "ts" "b" "y" "zip" :=
  ⟨by decide, by decide, by decide,
    C2_path_determinism_and_injectivity.2 "d/" "ts" "zip" "a" "x" "b" "y"
      (by decide) (by decide) (by decide)⟩

/-- C4: if the destination directory does not exist at start, the process
exits with the nonzero status -1, its event trace empty: no network
request was issued, no directory created, no file written. -/
theorem C4_invalid_destination_exits_early (e : Env)
    (hd : e.destIsDir = false) :
    mainRun e = ([], Outcome.exited (-1)) := by
  unfold mainRun
  rw [if_pos hd]

/-- Witness for C4: a concrete run whose destination is absent. -/
theorem C4_witness :
    envC4.destIsDir = false ∧ mainRun envC4 = ([], Outcome.exited (-1)) :=
  ⟨rfl, C4_invalid_destination_exits_early envC4 rfl⟩

/-- C5: when a response carries a quota-remaining value below the warning
threshold 10, `rate_limit_check` (a) completes a wait of exactly 10
one-second sleeps when the flag stays false at all 10 polls; (b) if the
flag is false through poll `j` and true at poll `j + 1` (i.e. cancellation
arrived during that second), it exits with status 0 at poll `j + 1` —
within one second of the flag being set; (c) if the flag is already set at
poll 0, it exits 0 immediately. -/
theorem C5_backoff_wait_and_cancellation (n : Int) (sig : Nat → Bool)
    (hn : n < RATE_LIMIT_WARNING_THRESHOLD) :
    ((∀ i, i < RATE_LIMIT_WAIT_TIME_S → sig i = false) →
      rate_limit_check (some n) sig = RlcResult.waited RATE_LIMIT_WAIT_TIME_S) ∧
    (∀ j, (∀ i, i ≤ j → sig i = false) → sig (j + 1) = true →
      j + 1 < RATE_LIMIT_WAIT_TIME_S →
      rate_limit_check (some n) sig = RlcResult.exit0 (j + 1)) ∧
    (sig 0 = true → rate_limit_check (some n) sig = RlcResult.exit0 0) := by
  have hlow : lowQuota (some n) = true := by simp [lowQuota, hn]
  refine ⟨?_, ?_, ?_⟩
  · intro hs
    unfold rate_limit_check
    rw [hlow]
    rw [backoffLoop_all_false sig RATE_LIMIT_WAIT_TIME_S 0
      fun i hi => by simpa using hs i hi]
    simp
  · intro j h0 ht hlt
    unfold rate_limit_check
    rw [hlow]
    rw [backoffLoop_first_true sig (j + 1) RATE_LIMIT_WAIT_TIME_S 0 hlt
      (fun i hi => by simpa using h0 i (by omega)) (by simpa using ht)]
    simp
  · intro h0
    unfold rate_limit_check
    rw [hlow]
    rw [backoffLoop_first_true sig 0 RATE_LIMIT_WAIT_TIME_S 0 (by decide)
      (by omega) (by simpa using h0)]
    simp

/-- Witness for C5: remaining quota 5; an undisturbed wait lasts 10
seconds; a flag set during the second sleep is observed at poll 2. -/
theorem C5_witness :
    ((5 : Int) < RATE_LIMIT_WARNING_THRESHOLD) ∧
    rate_limit_check (some 5) (fun _ => false) =
      RlcResult.waited RATE_LIMIT_WAIT_TIME_S ∧
    rate_limit_check (some 5) (fun i => decide (2 ≤ i)) = RlcResult.exit0 2 := by
  refine ⟨by decide, ?_, ?_⟩
  · exact (C5_backoff_wait_and_cancellation 5 (fun _ => false) (by decide)).1
      fun i hi => rfl
  · have h := (C5_backoff_wait_and_cancellation 5 (fun i => decide (2 ≤ i))
      (by decide)).2.1 1 (fun i hi => decide_eq_false (by omega)) (by decide)
      (by decide)
    simpa using h

/-- C9: an empty repository list from the search endpoint raises an
`IndexError` at `repos[0]['name']` that the `except KeyError` handler does
not catch: the run ends in an uncaught exception, not the diagnostic
`exit(-1)` path and not a successful zero-file backup; no file is written. -/
theorem C9_empty_search_uncaught_indexerror :
    validateRepos [] = ValidateOutcome.uncaughtException ∧
    validateRepos [] ≠ ValidateOutcome.diagnosticExit ∧
    validateRepos [] ≠ ValidateOutcome.proceed ∧
    (mainRun envC9).2 = Outcome.uncaught ∧
    writesOf (mainRun envC9).1 = [] := by
  decide

/-- C10: the cancellation flag is monotone: a flag that is true stays true
under every sequence of program statements, and after the signal handler's
write the flag is true no matter what ran before or runs after — no
statement of the program resets it. -/
theorem C10_flag_monotone :
    (∀ ops : List FlagOp, runFlag true ops = true) ∧
    (∀ (b : Bool) (pre post : List FlagOp),
      runFlag b (pre ++ FlagOp.handlerSet :: post) = true) := by
  refine ⟨runFlag_true, fun b pre post => ?_⟩
  rw [runFlag, List.foldl_append, List.foldl_cons]
  exact runFlag_true post

-- Whenever the destination directory exists, the very first event of a
-- run is the repository-search request.
theorem mainRun_head (e : Env) (hd : e.destIsDir = true) :
    (mainRun e).1.head? =
      some (Event.request ReqKind.search (searchUrl e.user)) := by
  obtain ⟨n, hn⟩ := make_request_m_events e.net e.sig ReqKind.search 0
    (searchUrl e.user)
  unfold mainRun
  rw [if_neg (by simp [hd])]
  rcases hmr : make_request_m e.net e.sig ReqKind.search 0 (searchUrl e.user)
    with ⟨evs1, t1, res⟩
  rw [hmr] at hn
  dsimp only at hn
  subst hn
  cases res with
  | error c0 => simp
  | ok r =>
    dsimp only
    rcases hitems : r.items with _ | ⟨r0, rs⟩
    · simp
    · dsimp only
      by_cases hm : e.mkdirOk = false
      · rw [if_pos hm]
        simp
      · rw [if_neg hm]
        rcases hloop : (fetchRepos e.net e.sig e.user (normDest e.dest)
            e.timestamp (if e.tarGz then "tar.gz" else "zip") e.allBranches
            t1 0 (r0 :: rs)).2.2.2 with _ | c0 <;> simp

/-- C1 counterexample: with all-branches mode on and the cancellation flag
already set before the fetch loop, the run still issues one branch-listing
request for each of the two repositories (the `break` only leaves the
inner branch loop), refuting "no further branch-listing request is
issued"; no archive is fetched and no file is written, and the run exits 0. -/
theorem C1_counterexample :
    requestsOf (mainRun envC1).1 =
      [(ReqKind.search, searchUrl "u"),
       (ReqKind.branchList, branchesUrl "u" "r1"),
       (ReqKind.branchList, branchesUrl "u" "r2")] ∧
    writesOf (mainRun envC1).1 = [] ∧
    (mainRun envC1).2 = Outcome.exited 0 := by
  exact ⟨rfl, rfl, rfl⟩

/-- C1 (amended): from any point of the fetch loop at which the
cancellation flag is (and stays) set, no further branch archive is fetched
and no further file is written, the byte counter is left unchanged and the
loop ends normally (exit 0 follows); however the loop does continue over
the remaining repositories, and in all-branches mode it still issues
exactly one branch-listing request per remaining repository. -/
theorem C1_cancellation_breaks_inner_loop_only (net : String → Resp)
    (sig : Nat → Bool) (user dest ts ext : String) (allB : Bool)
    (repos : List Repo) (t bytes : Nat)
    (hs : ∀ i, sig i = true)
    (hl : ∀ u, lowQuota ((net u).remaining) = false)
    (hk : ∀ u, (net u).ok = true) :
    writesOf (fetchRepos net sig user dest ts ext allB t bytes repos).1 = []
    ∧ (fetchRepos net sig user dest ts ext allB t bytes repos).2.2.1 = bytes
    ∧ (fetchRepos net sig user dest ts ext allB t bytes repos).2.2.2 = none
    ∧ requestsOf (fetchRepos net sig user dest ts ext allB t bytes repos).1 =
        (if allB then
          repos.map fun r => (ReqKind.branchList, branchesUrl user r.name)
        else []) :=
  fetchRepos_cancelled net sig user dest ts ext allB hs hl hk repos t bytes

/-- Witness for C1: the cancelled all-branches loop over two repositories,
entered mid-run with 5 bytes already counted. -/
theorem C1_witness :
    writesOf (fetchRepos netC1 (fun _ => true) "u" "d/" "ts" "zip" true 3 5
      [⟨"r1", "m"⟩, ⟨"r2", "m"⟩]).1 = []
    ∧ (fetchRepos netC1 (fun _ => true) "u" "d/" "ts" "zip" true 3 5
      [⟨"r1", "m"⟩, ⟨"r2", "m"⟩]).2.2.1 = 5
    ∧ (fetchRepos netC1 (fun _ => true) "u" "d/" "ts" "zip" true 3 5
      [⟨"r1", "m"⟩, ⟨"r2", "m"⟩]).2.2.2 = none
    ∧ requestsOf (fetchRepos netC1 (fun _ => true) "u" "d/" "ts" "zip" true 3 5
      [⟨"r1", "m"⟩, ⟨"r2", "m"⟩]).1 =
        (if true then
          [(⟨"r1", "m"⟩ : Repo), ⟨"r2", "m"⟩].map
            fun r => (ReqKind.branchList, branchesUrl "u" r.name)
        else []) :=
  C1_cancellation_breaks_inner_loop_only netC1 (fun _ => true) "u" "d/"
    "ts" "zip" true [⟨"r1", "m"⟩, ⟨"r2", "m"⟩] 3 5 (fun _ => rfl)
    (fun _ => rfl) (fun _ => rfl)

/-- C3 counterexample: in a fully successful run the trace begins with the
repository-search request; the timestamp capture and the creation of the
session directory come only after it, refuting "the session timestamp is
captured and the session directory is created before the repository-list
request is issued". -/
theorem C3_counterexample :
    mainRun envC3 =
      ([Event.request ReqKind.search (searchUrl "u"), Event.tsCapture,
        Event.mkdirEvt "d/ts", Event.reportEvt 0], Outcome.exited 0) := by
  exact rfl

/-- C3 (amended): the orchestrator issues the repository-list request
before capturing the timestamp and before creating the session directory:
whenever the destination exists, the first event of the run is the search
request; and if that request fails (HTTP failure, no rate limiting), the
process exits with status -1 with the request as its only event — in
particular the session directory has not been created and no file has
been written. -/
theorem C3_enumerate_precedes_init (e : Env) (hd : e.destIsDir = true) :
    (mainRun e).1.head? =
      some (Event.request ReqKind.search (searchUrl e.user)) ∧
    (lowQuota ((e.net (searchUrl e.user)).remaining) = false →
      (e.net (searchUrl e.user)).ok = false →
      (mainRun e).1 = [Event.request ReqKind.search (searchUrl e.user)] ∧
      (mainRun e).2 = Outcome.exited (-1)) := by
  refine ⟨mainRun_head e hd, fun hlow hfail => ?_⟩
  unfold mainRun
  rw [if_neg (by simp [hd]),
    make_request_m_fail e.net e.sig ReqKind.search 0 _ hlow hfail]
  exact ⟨rfl, rfl⟩

/-- Witness for C3: a run whose repository-list request fails. -/
theorem C3_witness :
    envFail.destIsDir = true ∧
    lowQuota ((netFail (searchUrl "u")).remaining) = false ∧
    (netFail (searchUrl "u")).ok = false ∧
    (mainRun envFail).1.head? =
      some (Event.request ReqKind.search (searchUrl "u")) ∧
    (mainRun envFail).1 = [Event.request ReqKind.search (searchUrl "u")] ∧
    (mainRun envFail).2 = Outcome.exited (-1) := by
  have h := C3_enumerate_precedes_init envFail rfl
  exact ⟨rfl, rfl, rfl, h.1, (h.2 rfl rfl).1, (h.2 rfl rfl).2⟩

/-- C6: (a) every write event of any run whatsoever writes, to the
destination path of some (repository, branch) pair, exactly the archive
endpoint's response body for that pair — no transformation, truncation or
re-encoding; (b) across the whole fetch loop the byte counter grows by
exactly the lengths of the bodies recorded by the write events, i.e. the
`bytes_written` counted per task is the length of the body written. -/
theorem C6_round_trip :
    (∀ (e : Env) (p : String) (c : List Nat),
      (p, c) ∈ writesOf (mainRun e).1 →
      ∃ rn b, p = destPath (normDest e.dest) e.timestamp rn b
          (if e.tarGz then "tar.gz" else "zip") ∧
        c = (e.net (archiveUrl e.user rn b
          (if e.tarGz then "tar.gz" else "zip"))).content) ∧
    (∀ (net : String → Resp) (sig : Nat → Bool) (user dest ts ext : String)
      (allB : Bool) (repos : List Repo) (t bytes : Nat),
      (fetchRepos net sig user dest ts ext allB t bytes repos).2.2.1 =
        bytes +
          sumWrites (fetchRepos net sig user dest ts ext allB t bytes repos).1) :=
  ⟨fun e => mainRun_writes_any e,
   fun net sig user dest ts ext allB repos t bytes =>
    fetchRepos_bytes_any net sig user dest ts ext allB repos t bytes⟩

/-- Witness for C6: the write of the one-repository run carries the two
archive bytes verbatim. -/
theorem C6_witness :
    (destPath "d/" "ts" "r" "m" "zip", [7, 9]) ∈ writesOf (mainRun envGood).1 ∧
    ∃ rn b, destPath "d/" "ts" "r" "m" "zip" =
        destPath (normDest envGood.dest) envGood.timestamp rn b
          (if envGood.tarGz then "tar.gz" else "zip") ∧
      [7, 9] = (envGood.net (archiveUrl envGood.user rn b
        (if envGood.tarGz then "tar.gz" else "zip"))).content :=
  ⟨by decide,
    C6_round_trip.1 envGood (destPath "d/" "ts" "r" "m" "zip") [7, 9]
      (by decide)⟩

theorem sumWrites_wrapper (u p : String) (l : List Event) (n : Nat) :
    sumWrites (Event.request ReqKind.search u :: Event.tsCapture ::
      Event.mkdirEvt p :: (l ++ [Event.reportEvt n])) = sumWrites l := by
  simp only [sumWrites, writesOf_cons_request, writesOf_cons_ts,
    writesOf_cons_mkdir, writesOf_concat_report]

theorem writesOf_pair (k : ReqKind) (u p : String) (c : List Nat) :
    writesOf [Event.request k u, Event.writeFile p c] = [(p, c)] := rfl

theorem requestsOf_pair (k : ReqKind) (u p : String) (c : List Nat) :
    requestsOf [Event.request k u, Event.writeFile p c] = [(k, u)] := rfl

theorem writesOf_taskPairs (net : String → Resp) (user rn dest ts ext : String) :
    ∀ bs : List String,
      writesOf (bs.flatMap fun b =>
        [Event.request ReqKind.archive (archiveUrl user rn b ext),
         Event.writeFile (destPath dest ts rn b ext)
           ((net (archiveUrl user rn b ext)).content)]) =
      bs.map fun b => (destPath dest ts rn b ext,
        (net (archiveUrl user rn b ext)).content) := by
  intro bs
  induction bs with
  | nil => simp [writesOf_nil]
  | cons b bs ih =>
    simp only [List.flatMap_cons, writesOf_append, writesOf_pair, ih,
      List.map_cons, List.singleton_append]

theorem requestsOf_taskPairs (net : String → Resp)
    (user rn dest ts ext : String) :
    ∀ bs : List String,
      requestsOf (bs.flatMap fun b =>
        [Event.request ReqKind.archive (archiveUrl user rn b ext),
         Event.writeFile (destPath dest ts rn b ext)
           ((net (archiveUrl user rn b ext)).content)]) =
      bs.map fun b => (ReqKind.archive, archiveUrl user rn b ext) := by
  intro bs
  induction bs with
  | nil => simp [requestsOf_nil]
  | cons b bs ih =>
    simp only [List.flatMap_cons, requestsOf_append, requestsOf_pair, ih,
      List.map_cons, List.singleton_append]

theorem writesOf_branchListOpt (allB : Bool) (u : String) :
    writesOf (if allB then [Event.request ReqKind.branchList u] else []) =
      [] := by
  cases allB <;> rfl

theorem requestsOf_branchListOpt (allB : Bool) (u : String) :
    requestsOf (if allB then [Event.request ReqKind.branchList u] else []) =
      (if allB then [(ReqKind.branchList, u)] else []) := by
  cases allB <;> rfl

/-- C7: in an uncancelled, unthrottled, failure-free run of the fetch
loop, the write events are exactly one per planned branch of each
repository — the single default branch when all-branches mode is off, the
branches returned by the branch-listing endpoint when it is on — and the
requests are exactly the archive downloads plus, only in all-branches
mode, one branch-listing request per repository: with the mode off, no
branch-listing request occurs. -/
theorem C7_one_task_per_branch (net : String → Resp) (sig : Nat → Bool)
    (user dest ts ext : String) (allB : Bool) (repos : List Repo)
    (t bytes : Nat)
    (hs : ∀ i, sig i = false)
    (hl : ∀ u, lowQuota ((net u).remaining) = false)
    (hk : ∀ u, (net u).ok = true) :
    writesOf (fetchRepos net sig user dest ts ext allB t bytes repos).1 =
      (repos.flatMap fun r => (branchPlan net user allB r).map fun b =>
        (destPath dest ts r.name b ext,
         (net (archiveUrl user r.name b ext)).content)) ∧
    requestsOf (fetchRepos net sig user dest ts ext allB t bytes repos).1 =
      (repos.flatMap fun r =>
        (if allB then [(ReqKind.branchList, branchesUrl user r.name)]
         else []) ++
        (branchPlan net user allB r).map fun b =>
          (ReqKind.archive, archiveUrl user r.name b ext)) ∧
    (fetchRepos net sig user dest ts ext allB t bytes repos).2.2.2 = none := by
  rw [fetchRepos_run net sig user dest ts ext allB hs hl hk repos t bytes]
  dsimp only
  refine ⟨?_, ?_, rfl⟩
  · induction repos with
    | nil => simp [writesOf_nil]
    | cons r rest ih =>
      simp only [List.flatMap_cons, writesOf_append,
        writesOf_branchListOpt, writesOf_taskPairs, List.nil_append, ih]
  · induction repos with
    | nil => simp [requestsOf_nil]
    | cons r rest ih =>
      simp only [List.flatMap_cons, requestsOf_append,
        requestsOf_branchListOpt, requestsOf_taskPairs, List.append_assoc, ih]

/-- Witness for C7: one repository, default-branch mode: exactly one write
and one archive request, and no branch-listing request. -/
theorem C7_witness :
    writesOf (fetchRepos netOneRepo (fun _ => false) "u" "d/" "ts" "zip"
        false 0 0 [⟨"r", "m"⟩]).1 =
      ([(⟨"r", "m"⟩ : Repo)].flatMap fun r =>
        (branchPlan netOneRepo "u" false r).map fun b =>
        (destPath "d/" "ts" r.name b "zip",
         (netOneRepo (archiveUrl "u" r.name b "zip")).content)) ∧
    requestsOf (fetchRepos netOneRepo (fun _ => false) "u" "d/" "ts" "zip"
        false 0 0 [⟨"r", "m"⟩]).1 =
      ([(⟨"r", "m"⟩ : Repo)].flatMap fun r =>
        (if false then [(ReqKind.branchList, branchesUrl "u" r.name)]
         else []) ++
        (branchPlan netOneRepo "u" false r).map fun b =>
          (ReqKind.archive, archiveUrl "u" r.name b "zip")) ∧
    (fetchRepos netOneRepo (fun _ => false) "u" "d/" "ts" "zip"
        false 0 0 [⟨"r", "m"⟩]).2.2.2 = none :=
  C7_one_task_per_branch netOneRepo (fun _ => false) "u" "d/" "ts" "zip"
    false [⟨"r", "m"⟩] 0 0 (fun _ => rfl) (fun _ => rfl) (fun _ => rfl)

/-- C8 counterexample: a run that reaches the fetch loop (the archive
request is issued) and is cancelled during the rate-limit backoff wait
exits with status 0 but reports nothing — no report event occurs —
refuting "the program reports the total bytes written and the elapsed
wall-clock time" for that cancellation path. -/
theorem C8_counterexample :
    hasReport (mainRun envC8).1 = false ∧
    (mainRun envC8).2 = Outcome.exited 0 ∧
    requestsOf (mainRun envC8).1 =
      [(ReqKind.search, searchUrl "u"),
       (ReqKind.archive, archiveUrl "u" "r" "m" "zip")] := by
  exact ⟨rfl, rfl, rfl⟩

/-- C8 (amended): on every run whose responses are HTTP-successful and
never rate limited — whether it completes fully or is cancelled at
branch-iteration checks — the program ends with the report of the total
bytes written as its last event and exits with status 0; but when
cancellation is observed during a rate-limit backoff wait, the process
exits 0 from inside the wait without reporting. -/
theorem C8_finalize_report_exit0 (e : Env) (hd : e.destIsDir = true)
    (hm : e.mkdirOk = true)
    (hl : ∀ u, lowQuota ((e.net u).remaining) = false)
    (hk : ∀ u, (e.net u).ok = true)
    (hne : (e.net (searchUrl e.user)).items ≠ []) :
    (mainRun e).2 = Outcome.exited 0 ∧
    (mainRun e).1.getLast? =
      some (Event.reportEvt (sumWrites (mainRun e).1)) := by
  rw [mainRun_good e hd hm hl hk hne]
  refine ⟨rfl, ?_⟩
  have hb := fetchRepos_bytes_any e.net e.sig e.user (normDest e.dest)
    e.timestamp (if e.tarGz then "tar.gz" else "zip") e.allBranches
    (e.net (searchUrl e.user)).items 0 0
  rw [sumWrites_wrapper, ← List.cons_append, ← List.cons_append,
    ← List.cons_append, List.getLast?_concat, hb, Nat.zero_add]

/-- Witness for C8: the fully successful one-repository run reports its
2-byte total as its last event and exits 0. -/
theorem C8_witness :
    envGood.destIsDir = true ∧
    (mainRun envGood).2 = Outcome.exited 0 ∧
    (mainRun envGood).1.getLast? =
      some (Event.reportEvt (sumWrites (mainRun envGood).1)) := by
  have h := C8_finalize_report_exit0 envGood rfl rfl (fun _ => rfl)
    (fun _ => rfl) (by decide)
  exact ⟨rfl, h.1, h.2⟩

end Gbak
